import Mathlib

/-!
Verification of the query-engine and index-provisioning core of the
flask-admin-dashboard repository.

The Python sources embedded here are:
* `src/app/routes/file_categories.py` — the Scan Store path: in-memory
  search, filter, sort (`get_sort_value`) and pagination
  (`_paginate_firestore`) over the document-store records;
* `src/app/routes/users.py` — the Capable Store path: search/filter/sort
  delegated to the SQL engine, pagination via flask-sqlalchemy;
* `src/app/routes/firestore_indexes.py` — `create_indexes` (the batch
  provisioning loop) and `validate_indexes` (the static validator).

Machine integers do not occur (Python integers are unbounded); lists,
strings and optional values translate directly.  Python exceptions are
modelled as `Except`/`Option` results.
-/

namespace AdminDash

/-! ## Result Page and the two paginators -/

/-- One page of records plus pagination metadata, as produced by both the
`_paginate_firestore` helper and the flask-sqlalchemy `paginate` call: the
five fields the routes serialize. -/
structure Page (α : Type) where
  items : List α
  total : Nat
  pages : Nat
  has_next : Bool
  has_prev : Bool
deriving DecidableEq

/-- Embeds `_paginate_firestore(query_results, page, per_page)` from
`src/app/routes/file_categories.py` (lines 29-43): `start = (page-1)*per_page`,
`end = start+per_page`, `items = query_results[start:end]`,
`pages = (total + per_page - 1) // per_page`, `has_next = end < total`,
`has_prev = page > 1`.  The Python slice `l[start:end]` is
`(l.drop start).take (end - start)`. -/
def paginate_firestore {α : Type} (query_results : List α) (page per_page : Nat) :
    Page α :=
  let total := query_results.length
  let start := (page - 1) * per_page
  { items := (query_results.drop start).take per_page
    total := total
    pages := (total + per_page - 1) / per_page
    has_next := decide (start + per_page < total)
    has_prev := decide (1 < page) }

/-- Models the flask-sqlalchemy `query.paginate(page=..., per_page=...,
error_out=False)` call in `get_users` (`src/app/routes/users.py` lines 72-76):
`items` is the OFFSET `(page-1)*per_page` LIMIT `per_page` slice of the ordered
result set, `total` the match count, `pages = ceil(total/per_page)` (0 when
`total = 0`), `has_prev = page > 1`, `has_next = page < pages`. -/
def flask_paginate {α : Type} (ordered : List α) (page per_page : Nat) : Page α :=
  let total := ordered.length
  let pages := if total = 0 ∨ per_page = 0 then 0 else (total + per_page - 1) / per_page
  { items := (ordered.drop ((page - 1) * per_page)).take per_page
    total := total
    pages := pages
    has_next := decide (page < pages)
    has_prev := decide (1 < page) }

/-! ## Helper lemmas on ceiling division -/

theorem ceil_div_nat_int (a b : Nat) (hb : 0 < b) :
    (((a + b - 1) / b : Nat) : ℤ) = ⌈(a : ℚ) / (b : ℚ)⌉ := by
  have hmod := Nat.div_add_mod (a + b - 1) b
  have hlt : (a + b - 1) % b < b := Nat.mod_lt _ hb
  set q := (a + b - 1) / b with hq
  have hbq : (0 : ℚ) < (b : ℚ) := by exact_mod_cast hb
  have hNat1 : b * q + 1 ≤ a + b := by omega
  have hNat2 : a ≤ b * q := by omega
  refine le_antisymm ?_ ?_
  · -- (q : ℤ) ≤ ⌈a/b⌉, via (q-1 : ℚ) < a/b
    have h4 : ((q : ℤ) - 1) < ⌈(a : ℚ) / (b : ℚ)⌉ := by
      rw [Int.lt_ceil]
      push_cast
      rw [lt_div_iff₀ hbq]
      have hc : (b : ℚ) * q + 1 ≤ (a : ℚ) + b := by exact_mod_cast hNat1
      nlinarith
    omega
  · -- ⌈a/b⌉ ≤ q, via a/b ≤ q
    refine Int.ceil_le.mpr ?_
    rw [div_le_iff₀ hbq]
    push_cast
    have hc : (a : ℚ) ≤ (b : ℚ) * q := by exact_mod_cast hNat2
    linarith

theorem lt_ceil_div_iff (page total p : Nat) (hp : 0 < p) :
    page < (total + p - 1) / p ↔ page * p < total := by
  constructor
  · intro h
    have h' : (page + 1) * p ≤ total + p - 1 :=
      (Nat.le_div_iff_mul_le hp).mp (Nat.succ_le_of_lt h)
    have hexp : (page + 1) * p = page * p + p := by ring
    omega
  · intro h
    have h' : (page + 1) * p ≤ total + p - 1 := by
      have hexp : (page + 1) * p = page * p + p := by ring
      omega
    exact Nat.lt_of_succ_le ((Nat.le_div_iff_mul_le hp).mpr h')

/-! ## Records and the Query Spec

The document-store model class (`FileCategory`) is not itself part of the
core sources; per the spec a Record is an entity with a stable identifier,
named fields and timestamps.  Modelled from the spec: a record carries the
required non-null `code`, optional `name`, `description`, `status` string
fields and an optional `created_date` timestamp (an instant, held as an
integer).  All attributes exist on the object, so Python `hasattr` checks
on these field names succeed. -/

structure Cat where
  code : String
  name : Option String
  description : Option String
  status : Option String
  created_date : Option Int
deriving DecidableEq

/-- Normalized query parameters, from `FileCategoryQuerySchema`
(`src/app/schemas/file_category_schema.py`): `page ≥ 1`,
`per_page ∈ [1,100]`, optional `search` and `status`, a `sort` field name
and an `order` direction string. -/
structure QuerySpec where
  page : Nat
  per_page : Nat
  search : Option String := none
  status : Option String := none
  sort : String := "code"
  order : String := "asc"
deriving DecidableEq

/-- A Python attribute value as seen by `get_sort_value`: `None`, a string,
or a `datetime` (represented by its numeric instant). -/
inductive PyVal where
  | vnone : PyVal
  | vstr (s : String) : PyVal
  | vdt (t : Int) : PyVal
deriving DecidableEq

/-- Python `getattr(cat, field)` for the record fields, `none` when the
attribute does not exist on the object. -/
def getAttr (c : Cat) : String → Option PyVal
  | "code" => some (.vstr c.code)
  | "name" => some (c.name.elim .vnone .vstr)
  | "description" => some (c.description.elim .vnone .vstr)
  | "status" => some (c.status.elim .vnone .vstr)
  | "created_date" => some (c.created_date.elim .vnone .vdt)
  | _ => none

/-- A sort key produced by `get_sort_value`: either a string or a number
(the `timestamp()` of a datetime).  Comparing keys of different kinds
raises `TypeError` in Python 3. -/
inductive SortKey where
  | str (s : String) : SortKey
  | num (t : Int) : SortKey
deriving DecidableEq

/-- Embeds `get_sort_value(cat)` from `get_file_categories`
(`src/app/routes/file_categories.py` lines 75-81): a missing attribute
yields `''`; a datetime value (always truthy) yields its timestamp; any
other value yields itself when truthy, else `''`.  Note a `None` value is
not a datetime instance, so it falls to the last branch and yields `''`
even for a timestamp-typed field. -/
def get_sort_value (sort_field : String) (c : Cat) : SortKey :=
  match getAttr c sort_field with
  | none => .str ""
  | some (.vdt t) => .num t
  | some (.vstr s) => if s = "" then .str "" else .str s
  | some .vnone => .str ""

/-- Three-way comparison of naturals. -/
def cmpNat (a b : Nat) : Ordering :=
  if a < b then .lt else if a = b then .eq else .gt

/-- Lexicographic three-way comparison of character lists by code point. -/
def cmpCharList : List Char → List Char → Ordering
  | [], [] => .eq
  | [], _ :: _ => .lt
  | _ :: _, [] => .gt
  | a :: as, b :: bs =>
    match cmpNat a.toNat b.toNat with
    | .eq => cmpCharList as bs
    | o => o

/-- Three-way comparison of strings by code point, as Python compares
strings and as a C-collation SQL engine orders text. -/
def cmpStr (a b : String) : Ordering := cmpCharList a.data b.data

/-- Three-way comparison of numeric instants. -/
def cmpInt (a b : Int) : Ordering :=
  if a < b then .lt else if a = b then .eq else .gt

/-- Python 3 comparison of two sort keys: defined within one kind,
`TypeError` (`none`) across kinds. -/
def pyCompare : SortKey → SortKey → Option Ordering
  | .str a, .str b => some (cmpStr a b)
  | .num a, .num b => some (cmpInt a b)
  | _, _ => none

/-- Which comparison outcomes let the inserted element stay in front:
ascending keeps `lt`/`eq` (`x ≤ y`), and `reverse=True` reverses the
comparator — not the final list — so descending keeps `gt`/`eq`
(`x ≥ y`).  Both keep `eq`, which is what makes the sort stable. -/
def keepOfOrder (desc : Bool) : Ordering → Bool :=
  fun o => if desc then !(o == Ordering.lt) else !(o == Ordering.gt)

/-- Stable insertion step of the model of Python `list.sort(key=...)`:
walk the already-sorted list, placing `x` before the first element it need
not go after; a cross-kind key comparison raises (`none`). -/
def pyInsertBy {α : Type} (keep : Ordering → Bool) (key : α → SortKey) (x : α) :
    List α → Option (List α)
  | [] => some [x]
  | y :: ys =>
    match pyCompare (key x) (key y) with
    | none => none
    | some o =>
      if keep o then some (x :: y :: ys)
      else (pyInsertBy keep key x ys).map (y :: ·)

/-- Model of Python `list.sort(key=..., reverse=...)`: a stable sort that
propagates the `TypeError` raised when two keys of different kinds are
compared.  (CPython's timsort performs a different comparison schedule but
computes the same stable result whenever all keys are mutually
comparable.) -/
def pySortBy {α : Type} (keep : Ordering → Bool) (key : α → SortKey) :
    List α → Option (List α)
  | [] => some []
  | x :: xs => (pySortBy keep key xs).bind (pyInsertBy keep key x)

/-- The sort stage of `get_file_categories`
(`src/app/routes/file_categories.py` lines 72-83):
`filtered_categories.sort(key=get_sort_value, reverse=(order == 'desc'))`. -/
def scan_sort (sort_field : String) (desc : Bool) (l : List Cat) :
    Option (List Cat) :=
  pySortBy (keepOfOrder desc) (get_sort_value sort_field) l

/-! ## Case-insensitive substring search (scan path) -/

/-- ASCII lower-casing of one character, as Python `str.lower()` and SQL
`ILIKE` case folding act on ASCII letters. -/
def lowerChar (c : Char) : Char :=
  match c with
  | 'A' => 'a' | 'B' => 'b' | 'C' => 'c' | 'D' => 'd' | 'E' => 'e'
  | 'F' => 'f' | 'G' => 'g' | 'H' => 'h' | 'I' => 'i' | 'J' => 'j'
  | 'K' => 'k' | 'L' => 'l' | 'M' => 'm' | 'N' => 'n' | 'O' => 'o'
  | 'P' => 'p' | 'Q' => 'q' | 'R' => 'r' | 'S' => 's' | 'T' => 't'
  | 'U' => 'u' | 'V' => 'v' | 'W' => 'w' | 'X' => 'x' | 'Y' => 'y'
  | 'Z' => 'z' | other => other

/-- Lower-case a whole string. -/
def lowerStr (s : String) : String := ⟨s.data.map lowerChar⟩

/-- Does `n` match the front of `h` character for character? -/
def plainLead : List Char → List Char → Bool
  | [], _ => true
  | _ :: _, [] => false
  | a :: as, b :: bs => a == b && plainLead as bs

/-- Occurrence of `n` anywhere in the haystack: Python's substring test
`n in h`. -/
def subSearch (n : List Char) : List Char → Bool
  | [] => plainLead n []
  | c :: cs => plainLead n (c :: cs) || subSearch n cs

/-- Python `needle in hay` on strings. -/
def strIn (needle hay : String) : Bool := subSearch needle.data hay.data

/-- Python truthiness of a string: non-empty. -/
def truthyStr (s : String) : Bool := !(s == "")

/-- Embeds the search predicate of `get_file_categories`
(`src/app/routes/file_categories.py` lines 58-65): the lowered term is a
substring of `code.lower()`, or of `name.lower()` when `name` is truthy,
or of `description.lower()` when `description` is truthy. -/
def scan_search_match (term : String) (c : Cat) : Bool :=
  let t := lowerStr term
  strIn t (lowerStr c.code)
  || (match c.name with
      | some s => truthyStr s && strIn t (lowerStr s)
      | none => false)
  || (match c.description with
      | some s => truthyStr s && strIn t (lowerStr s)
      | none => false)

/-- The filter stages of `get_file_categories` (lines 54-69): the search
filter when `validated_data.search` is truthy, then the equality status
filter when `validated_data.status` is truthy. -/
def scan_filtered (search statusF : Option String) (l : List Cat) : List Cat :=
  let l1 := match search with
    | some t => if truthyStr t then l.filter (scan_search_match t) else l
    | none => l
  match statusF with
  | some v => if truthyStr v then l1.filter (fun c => decide (c.status = some v)) else l1
  | none => l1

/-- Embeds the whole Scan Store pipeline of `get_file_categories`
(`src/app/routes/file_categories.py` lines 49-98): fetch all, search
filter, status filter, in-memory sort, `_paginate_firestore`.  `none` is
the `TypeError` Python raises when the sort compares keys of different
kinds. -/
def get_file_categories (sp : QuerySpec) (all_categories : List Cat) :
    Option (Page Cat) :=
  (scan_sort sp.sort (sp.order == "desc") (scan_filtered sp.search sp.status all_categories)).map
    (fun sorted => paginate_firestore sorted sp.page sp.per_page)

/-! ## The Capable Store path

`get_users` (`src/app/routes/users.py` lines 36-88) delegates search,
filter and sort to the SQL engine.  The definitions below model, over the
same abstract records, the semantics of the SQL operations that route
issues: `ILIKE '%term%'` search over the store-declared searchable fields,
equality filters, a deterministic stable `ORDER BY` with PostgreSQL's
default NULL placement (NULLS LAST ascending, NULLS FIRST descending) and
C-collation character comparison, and flask-sqlalchemy pagination. -/

/-- Split a character list at every `%` wildcard, producing the literal
segments between wildcards (segments may be empty). -/
def splitPercent : List Char → List (List Char)
  | [] => [[]]
  | c :: cs =>
    if c = '%' then [] :: splitPercent cs
    else
      match splitPercent cs with
      | [] => [[c]]
      | seg :: rest => (c :: seg) :: rest

/-- One pattern character against one text character: `_` matches any
single character, anything else matches itself. -/
def charMatches (p c : Char) : Bool := p == '_' || p == c

/-- Does the segment match the front of the text, `_` wildcards allowed? -/
def leadMatch : List Char → List Char → Bool
  | [], _ => true
  | _ :: _, [] => false
  | p :: ps, c :: cs => charMatches p c && leadMatch ps cs

/-- Find the first occurrence of the segment in the text and return the
remaining text after it; `none` when the segment occurs nowhere.  Because
segments have fixed length, taking the earliest occurrence loses no later
matches. -/
def scanSeg (seg : List Char) : List Char → Option (List Char)
  | [] => if leadMatch seg [] then some [] else none
  | c :: cs =>
    if leadMatch seg (c :: cs) then some ((c :: cs).drop seg.length)
    else scanSeg seg cs

/-- Do the segments occur in the text, in order, without overlapping? -/
def matchSegs : List (List Char) → List Char → Bool
  | [], _ => true
  | seg :: rest, s =>
    match scanSeg seg s with
    | none => false
    | some rem => matchSegs rest rem

/-- Models SQL `column ILIKE '%' || term || '%'` as issued by `get_users`
(`src/app/routes/users.py` lines 46-54, pattern `f"%{search}%"`), for
patterns free of the escape character: both sides are case-folded, the
term's own `%` wildcards cut it into literal segments that must occur in
order, `_` matches any single character, and the surrounding `%`
wildcards free the match from both ends.

The PostgreSQL backend additionally treats backslash as the default
`LIKE` escape character (`ilike` is called without `escape=`).  That
escape processing is NOT modelled here; on a backslash-free pattern it is
the identity, so this function agrees with the engine exactly on terms
containing no backslash — the equivalence results below therefore
hypothesise backslash-free terms alongside wildcard-free ones. -/
def ilikeWrapped (term s : String) : Bool :=
  matchSegs (splitPercent ((lowerStr term).data)) ((lowerStr s).data)

/-- The `or_(email.ilike(...), first_name.ilike(...), last_name.ilike(...))`
search predicate of `get_users`, over the searchable fields of the common
record shape; `ILIKE` on a NULL column is not a match. -/
def sql_search_match (term : String) (c : Cat) : Bool :=
  ilikeWrapped term c.code
  || (match c.name with
      | some s => ilikeWrapped term s
      | none => false)
  || (match c.description with
      | some s => ilikeWrapped term s
      | none => false)

/-- The WHERE stages of `get_users` (lines 45-62): the `ILIKE` search when
`validated_data.search` is truthy, then the equality status filter when
`validated_data.status` is truthy (SQL `status = v`, NULL never equal). -/
def sql_filtered (search statusF : Option String) (l : List Cat) : List Cat :=
  let l1 := match search with
    | some t => if truthyStr t then l.filter (sql_search_match t) else l
    | none => l
  match statusF with
  | some v => if truthyStr v then l1.filter (fun c => decide (c.status = some v)) else l1
  | none => l1

/-- The whole Capable Store pipeline of `get_users`
(`src/app/routes/users.py` lines 36-88): server-side search and filter,
then `ORDER BY` on the resolved sort column (line 65, with the
`created_date` fallback), then flask-sqlalchemy pagination.

The ORDER BY stage is modelled as a parameter `engineOrder`: the SQL
standard promises only that the engine returns exactly the filtered rows
in some order satisfying the requested sort; which order — the text
collation in force and the relative placement of rows with equal sort
keys — is left to the engine and deployment.  Statements about this path
therefore quantify over every `engineOrder` that permutes the filtered
rows, and assert only order-independent facts. -/
def get_users (engineOrder : List Cat → List Cat) (sp : QuerySpec)
    (all_users : List Cat) : Page Cat :=
  flask_paginate
    (engineOrder (sql_filtered sp.search sp.status all_users))
    sp.page sp.per_page

/-! ## Index definitions, provisioning and validation
(`src/app/routes/firestore_indexes.py`) -/

/-- One field descriptor of an index definition as parsed from
`firestore.indexes.json`: the three keys the code reads, each possibly
absent. -/
structure FieldJson where
  fieldPath : Option String := none
  order : Option String := none
  arrayConfig : Option String := none
deriving DecidableEq

/-- One index definition: the three keys the code reads.  `fields` keeps
the distinction between an absent key and a present empty list, which
`validate_indexes` treats differently from the field loop. -/
structure IndexJson where
  collectionGroup : Option String := none
  fields : Option (List FieldJson) := none
  queryScope : Option String := none
deriving DecidableEq

/-- One per-definition outcome appended to `results` by `create_indexes`;
`status` is one of the strings `Initiated`, `Exists`, `Skipped`,
`Error`. -/
structure Outcome where
  index : String
  status : String
  detail : String
deriving DecidableEq

/-- Whether the field mapping of `create_indexes` (lines 224-236) keeps a
descriptor: the built `api_field` dict is non-empty iff at least one of the
three keys was present. -/
def fieldNonEmpty (f : FieldJson) : Bool :=
  f.fieldPath.isSome || f.order.isSome || f.arrayConfig.isSome

/-- The `api_fields` list built for one definition (lines 224-236): the
present keys of every field are copied over and empty descriptors are
dropped. -/
def apiFields (d : IndexJson) : List FieldJson :=
  (d.fields.getD []).filter fieldNonEmpty

/-- The request body built for one definition (lines 243-246). -/
structure IndexBody where
  queryScope : String
  fields : List FieldJson
deriving DecidableEq

/-- `index_body` of lines 243-246: `queryScope` defaulted to
`COLLECTION`. -/
def indexBody (d : IndexJson) : IndexBody :=
  { queryScope := d.queryScope.getD "COLLECTION", fields := apiFields d }

/-- One field's text in `index_name_str` (line 248):
`f['fieldPath'] + ' ' + f.get('order','ASC')` when `order` is present,
else `f['fieldPath'] + ' ARRAY_CONTAINS'`.  Both branches subscript
`f['fieldPath']`, which raises `KeyError` when the key is absent — and
line 248 sits outside the `try` block. -/
def describeField (f : FieldJson) : Except String String :=
  match f.order, f.fieldPath with
  | some o, some p => .ok (p ++ " " ++ o)
  | some _, none => .error "KeyError: fieldPath"
  | none, some p => .ok (p ++ " ARRAY_CONTAINS")
  | none, none => .error "KeyError: fieldPath"

/-- Python comma-space joining of a list of strings. -/
def joinComma : List String → String
  | [] => ""
  | [s] => s
  | s :: rest => s ++ ", " ++ joinComma rest

/-- The list-comprehension of line 248, evaluated left to right: stops at
the first `KeyError`. -/
def describeAll : List FieldJson → Except String (List String)
  | [] => .ok []
  | f :: fs =>
    match describeField f, describeAll fs with
    | .ok s, .ok ds => .ok (s :: ds)
    | .error e, _ => .error e
    | .ok _, .error e => .error e

/-- The human-readable index label `index_name_str` of line 248. -/
def indexLabel (cid : String) (fs : List FieldJson) : Except String String :=
  match describeAll fs with
  | .ok descs => .ok (cid ++ " (" ++ joinComma descs ++ ")")
  | .error e => .error e

/-- What one remote `indexes().create(...).execute()` call can come back
with: an accepted long-running operation (carrying its name), an
`HttpError` (status code, optional decoded content, the error's string
form, and — when the content parses as JSON — the structured
`error.message` and serialized `error.details`), or any other exception. -/
inductive SubmitResult where
  | accepted (opName : String) : SubmitResult
  | httpError (statusCode : Nat) (content : Option String) (strRep : String)
      (jsonMessage : Option String) (jsonDetails : Option String) : SubmitResult
  | exc (msg : String) : SubmitResult

/-- The `except HttpError` handler of lines 265-286: `Exists` when the
status code is 409 or the decoded content (falling back to `str(e)`)
contains `already exists` case-insensitively; otherwise `Error` with the
structured message extracted from the JSON payload when it parses,
falling back to the raw error string, plus serialized details when
present. -/
def httpErrorOutcome (label : String) (statusCode : Nat) (content : Option String)
    (strRep : String) (jsonMessage : Option String) (jsonDetails : Option String) :
    Outcome :=
  let error_content := content.getD strRep
  if statusCode == 409 || strIn "already exists" (lowerStr error_content) then
    { index := label, status := "Exists", detail := "Index already exists." }
  else
    let base := match jsonMessage with
      | some m => m
      | none => strRep
    let detail := match jsonDetails with
      | some d => base ++ " Details: " ++ d
      | none => base
    { index := label, status := "Error", detail := detail }

/-- The `try`-guarded submission of lines 250-291, with the three handler
branches of the source. -/
def submitOutcome (label : String) (r : SubmitResult) : Outcome :=
  match r with
  | .accepted op =>
    { index := label, status := "Initiated", detail := "Operation: " ++ op }
  | .httpError sc content strRep jm jd =>
    httpErrorOutcome label sc content strRep jm jd
  | .exc m =>
    { index := label, status := "Error", detail := "Unexpected error: " ++ m }

/-- The statuses that set `has_errors` in the loop: exactly the `Skipped`
and `Error` branches flip the flag. -/
def isErrStatus (o : Outcome) : Bool := o.status == "Skipped" || o.status == "Error"

/-- One iteration of the `for index_def in indexes_to_create` loop of
`create_indexes` (lines 215-291): skip on falsy `collectionGroup`
(missing or empty string), skip on empty `api_fields`, then build the
label — whose `KeyError` propagates, being outside the `try` — and record
the outcome of the submission. -/
def provisionStep (submit : String → IndexBody → SubmitResult) (d : IndexJson) :
    Except String Outcome :=
  match d.collectionGroup with
  | none =>
    .ok { index := "Unknown", status := "Skipped",
          detail := "Missing collectionGroup in definition." }
  | some cid =>
    if cid = "" then
      .ok { index := "Unknown", status := "Skipped",
            detail := "Missing collectionGroup in definition." }
    else if (apiFields d).isEmpty then
      .ok { index := cid, status := "Skipped",
            detail := "No valid fields defined for index." }
    else do
      let label ← indexLabel cid (apiFields d)
      return submitOutcome label (submit cid (indexBody d))

/-- The whole batch loop of `create_indexes` (lines 212-293): outcomes in
input order and the `has_errors` flag; `.error` is an exception escaping
the loop (which in the route aborts the request with a 500). -/
def create_indexes (submit : String → IndexBody → SubmitResult) :
    List IndexJson → Except String (List Outcome × Bool)
  | [] => .ok ([], false)
  | d :: ds => do
    let o ← provisionStep submit d
    let (rest, he) ← create_indexes submit ds
    return (o :: rest, isErrStatus o || he)

/-! ### The validator (`validate_indexes`, lines 302-367) -/

/-- The errors one field contributes (lines 329-357), in source order:
missing `fieldPath`; neither `order` nor `arrayConfig`; an `order` other
than ASCENDING/DESCENDING; an `arrayConfig` other than CONTAINS. -/
def fieldErrors (idx fidx : Nat) (f : FieldJson) : List String :=
  (if f.fieldPath.isNone then
    ["Index " ++ toString idx ++ ", field " ++ toString fidx ++ ": missing fieldPath"]
   else [])
  ++ (if f.order.isNone && f.arrayConfig.isNone then
    ["Index " ++ toString idx ++ ", field " ++ toString fidx
      ++ ": must have either order or arrayConfig"]
   else [])
  ++ (match f.order with
      | some o =>
        if o ≠ "ASCENDING" ∧ o ≠ "DESCENDING" then
          ["Index " ++ toString idx ++ ", field " ++ toString fidx
            ++ ": order must be ASCENDING or DESCENDING"]
        else []
      | none => [])
  ++ (match f.arrayConfig with
      | some a =>
        if a ≠ "CONTAINS" then
          ["Index " ++ toString idx ++ ", field " ++ toString fidx
            ++ ": arrayConfig must be CONTAINS"]
        else []
      | none => [])

/-- The warnings one field contributes (lines 344-347) — the only place
`validation_warnings` is appended to: both `order` and `arrayConfig`
present. -/
def fieldWarnings (idx fidx : Nat) (f : FieldJson) : List String :=
  if f.order.isSome && f.arrayConfig.isSome then
    ["Index " ++ toString idx ++ ", field " ++ toString fidx
      ++ ": has both order and arrayConfig, arrayConfig will be used"]
  else []

/-- The errors one definition contributes (lines 319-357): missing
`collectionGroup` key; missing-or-empty `fields`; then every field's
errors.  Note only a missing `collectionGroup` key is flagged — a present
empty string passes. -/
def indexErrors (idx : Nat) (d : IndexJson) : List String :=
  (if d.collectionGroup.isNone then
    ["Index " ++ toString idx ++ ": missing collectionGroup field"]
   else [])
  ++ (match d.fields with
      | none => ["Index " ++ toString idx ++ ": missing or empty fields array"]
      | some [] => ["Index " ++ toString idx ++ ": missing or empty fields array"]
      | some (_ :: _) => [])
  ++ (match d.fields with
      | some l => (l.enum.map (fun p => fieldErrors idx p.1 p.2)).flatten
      | none => [])

/-- The warnings one definition contributes. -/
def indexWarnings (idx : Nat) (d : IndexJson) : List String :=
  match d.fields with
  | some l => (l.enum.map (fun p => fieldWarnings idx p.1 p.2)).flatten
  | none => []

/-- The two accumulator lists of `validate_indexes`. -/
structure ValidateReport where
  errors : List String
  warnings : List String
deriving DecidableEq

/-- Embeds the validation loop of `validate_indexes`
(`src/app/routes/firestore_indexes.py` lines 315-357): the errors and
warnings appended over all definitions, in order. -/
def validate_indexes (indexes : List IndexJson) : ValidateReport :=
  { errors := (indexes.enum.map (fun p => indexErrors p.1 p.2)).flatten
    warnings := (indexes.enum.map (fun p => indexWarnings p.1 p.2)).flatten }

/-- `is_valid = len(validation_errors) == 0` (line 359). -/
def is_valid (r : ValidateReport) : Bool := r.errors.length == 0

/-! ## Claim C4: pagination slice properties -/

/-- C4: for every result set and every query with `page ≥ 1`,
`per_page ∈ [1,100]`, the items of `_paginate_firestore` are exactly the
slice from `start = (page-1)*per_page` to `start+per_page` of the ordered
set; hence at most `per_page` items, exactly `per_page` items whenever
`total - start ≥ per_page`, and the empty list (not an error) whenever
`start ≥ total`. -/
theorem c4_paginate_slice {α : Type} (l : List α) (page per_page : Nat)
    (hpage : 1 ≤ page) (hpp1 : 1 ≤ per_page) (hpp2 : per_page ≤ 100) :
    (paginate_firestore l page per_page).items
        = (l.drop ((page - 1) * per_page)).take per_page
    ∧ (paginate_firestore l page per_page).items.length ≤ per_page
    ∧ (per_page ≤ l.length - (page - 1) * per_page →
        (paginate_firestore l page per_page).items.length = per_page)
    ∧ (l.length ≤ (page - 1) * per_page →
        (paginate_firestore l page per_page).items = []) := by
  refine ⟨rfl, ?_, ?_, ?_⟩
  · simpa [paginate_firestore] using List.length_take_le per_page _
  · intro h
    simp only [paginate_firestore, List.length_take, List.length_drop]
    omega
  · intro h
    have hdrop : l.drop ((page - 1) * per_page) = [] := by
      apply List.drop_eq_nil_of_le h
    simp [paginate_firestore, hdrop]

theorem c4_paginate_slice_witness :
    (paginate_firestore [10, 20, 30, 40, 50] 2 2).items
        = (([10, 20, 30, 40, 50] : List Nat).drop 2).take 2
    ∧ (paginate_firestore [10, 20, 30, 40, 50] 2 2).items.length ≤ 2
    ∧ (2 ≤ ([10, 20, 30, 40, 50] : List Nat).length - 2 →
        (paginate_firestore [10, 20, 30, 40, 50] 2 2).items.length = 2)
    ∧ (([10, 20, 30, 40, 50] : List Nat).length ≤ 2 →
        (paginate_firestore [10, 20, 30, 40, 50] 2 2).items = []) := by
  simpa using c4_paginate_slice [10, 20, 30, 40, 50] 2 2
    (by decide) (by decide) (by decide)

/-! ## Claim C7: pages is the ceiling of total / per_page -/

/-- C7: for every result set and `per_page ∈ [1,100]`, the `pages` value
`(total + per_page - 1) // per_page` computed by `_paginate_firestore`
equals `⌈total / per_page⌉`, and `pages = 0` iff `total = 0`. -/
theorem c7_pages_ceil {α : Type} (l : List α) (page per_page : Nat)
    (hpp1 : 1 ≤ per_page) (hpp2 : per_page ≤ 100) :
    (((paginate_firestore l page per_page).pages : ℤ)
        = ⌈(l.length : ℚ) / (per_page : ℚ)⌉)
    ∧ ((paginate_firestore l page per_page).pages = 0 ↔ l.length = 0) := by
  constructor
  · exact ceil_div_nat_int l.length per_page hpp1
  · simp only [paginate_firestore]
    constructor
    · intro h
      by_contra hne
      have h1 : 1 ≤ l.length := Nat.one_le_iff_ne_zero.mpr hne
      have : 1 ≤ (l.length + per_page - 1) / per_page := by
        have : per_page ≤ l.length + per_page - 1 := by omega
        calc 1 = per_page / per_page := (Nat.div_self hpp1).symm
        _ ≤ (l.length + per_page - 1) / per_page := Nat.div_le_div_right this
      omega
    · intro h
      simp only [h]
      exact Nat.div_eq_of_lt (by omega)

theorem c7_pages_ceil_witness :
    ((((paginate_firestore [1, 2, 3, 4, 5] 1 2).pages : ℤ)
        = ⌈(([1, 2, 3, 4, 5] : List Nat).length : ℚ) / (2 : ℚ)⌉)
    ∧ ((paginate_firestore [1, 2, 3, 4, 5] 1 2).pages = 0
        ↔ ([1, 2, 3, 4, 5] : List Nat).length = 0)) :=
  c7_pages_ceil [1, 2, 3, 4, 5] 1 2 (by decide) (by decide)

/-! ## Claim C10: out-of-range pages -/

/-- C10: when the requested page lies past the end of the data
(`(page-1)*per_page ≥ total`), `_paginate_firestore` returns empty `items`
with `has_next = false`, while `has_prev` is computed from `page` alone as
`page > 1` — hence true for such an empty out-of-range page whenever
`page > 1`. -/
theorem c10_out_of_range {α : Type} (l : List α) (page per_page : Nat)
    (hpage : 1 ≤ page) (hpp : 1 ≤ per_page)
    (h : l.length ≤ (page - 1) * per_page) :
    (paginate_firestore l page per_page).items = []
    ∧ (paginate_firestore l page per_page).has_next = false
    ∧ (paginate_firestore l page per_page).has_prev = decide (1 < page) := by
  refine ⟨?_, ?_, rfl⟩
  · have hdrop : l.drop ((page - 1) * per_page) = [] :=
      List.drop_eq_nil_of_le h
    simp [paginate_firestore, hdrop]
  · simp only [paginate_firestore, decide_eq_false_iff_not, not_lt]
    omega

theorem c10_out_of_range_witness :
    (paginate_firestore [7, 8] 3 2).items = []
    ∧ (paginate_firestore [7, 8] 3 2).has_next = false
    ∧ (paginate_firestore [7, 8] 3 2).has_prev = decide (1 < 3) :=
  c10_out_of_range [7, 8] 3 2 (by decide) (by decide) (by decide)

/-! ## Claim C5: null sort fields — the code errors where the claim says
it cannot

`get_sort_value` sends a record whose timestamp field is `None` to the
string branch (`isinstance(None, datetime)` is false), producing the key
`''` instead of the epoch `0` that the dead `else 0` branch intended.
When another record in the same list carries a real timestamp, the keys
`''` and a float are compared and Python raises
`TypeError: '<' not supported between instances of 'str' and 'float'`,
so the sort does error. -/

/-- C5 evaluation at the failing input: the record with a `None`
`created_date` gets sort key `''` (a string, not the epoch); sorting it
together with a record carrying a real timestamp raises, for both
directions. -/
theorem c5_null_timestamp_sort_raises :
    get_sort_value "created_date" ⟨"B", none, none, none, none⟩ = SortKey.str ""
    ∧ scan_sort "created_date" false
        [⟨"A", none, none, some "active", some 1704067200⟩,
         ⟨"B", none, none, none, none⟩] = none
    ∧ scan_sort "created_date" true
        [⟨"A", none, none, some "active", some 1704067200⟩,
         ⟨"B", none, none, none, none⟩] = none := by
  refine ⟨rfl, rfl, rfl⟩

/-! ## Claim C9: missing vs empty collection -/

/-- C9 counterexample: a definition whose `collectionGroup` is present but
the empty string produces no error at all — `validate_indexes` only
checks `'collectionGroup' not in index_config` — so the report is valid,
contrary to the claim that an empty collection is an error. -/
theorem c9_counterexample :
    (validate_indexes
        [{ collectionGroup := some "",
           fields := some [{ fieldPath := some "a", order := some "ASCENDING" }] }]).errors = []
    ∧ is_valid (validate_indexes
        [{ collectionGroup := some "",
           fields := some [{ fieldPath := some "a", order := some "ASCENDING" }] }]) = true := by
  refine ⟨rfl, rfl⟩

theorem flatten_ne_nil_of_mem {α : Type} {L : List (List α)} {e : List α}
    (he : e ∈ L) (hne : e ≠ []) : L.flatten ≠ [] := by
  induction L with
  | nil => cases he
  | cons hd tl ih =>
    rcases List.mem_cons.mp he with heq | htl
    · subst heq
      simp only [List.flatten_cons, ne_eq, List.append_eq_nil]
      intro hc
      exact hne hc.1
    · simp only [List.flatten_cons, ne_eq, List.append_eq_nil]
      intro hc
      exact ih htl hc.2

theorem indexErrors_ne_nil_of_missing (idx : Nat) (d : IndexJson)
    (h : d.collectionGroup = none) : indexErrors idx d ≠ [] := by
  simp [indexErrors, h]

theorem errors_component_ne_nil (n : Nat) (defs : List IndexJson) (d : IndexJson)
    (hmem : d ∈ defs) (h : d.collectionGroup = none) :
    ∃ e ∈ (List.enumFrom n defs).map (fun p => indexErrors p.1 p.2), e ≠ [] := by
  induction defs generalizing n with
  | nil => cases hmem
  | cons hd tl ih =>
    rcases List.mem_cons.mp hmem with heq | htl
    · exact ⟨indexErrors n hd, by simp [List.enumFrom], by
        subst heq; exact indexErrors_ne_nil_of_missing n d h⟩
    · obtain ⟨e, he, hne⟩ := ih (n + 1) htl
      exact ⟨e, by simp [List.enumFrom]; right; simpa using he, hne⟩

/-- C9 amended: for a definition whose `collectionGroup` KEY is missing,
`validate_indexes` appends an error and the report is invalid; a present
but empty collection string is not flagged (see the counterexample). -/
theorem c9_missing_collection_error (defs : List IndexJson) (d : IndexJson)
    (hmem : d ∈ defs) (h : d.collectionGroup = none) :
    (validate_indexes defs).errors ≠ []
    ∧ is_valid (validate_indexes defs) = false := by
  have hne : (validate_indexes defs).errors ≠ [] := by
    obtain ⟨e, he, hene⟩ := errors_component_ne_nil 0 defs d hmem h
    simp only [validate_indexes, List.enum]
    exact flatten_ne_nil_of_mem he hene
  refine ⟨hne, ?_⟩
  simp only [is_valid, beq_iff_eq, List.length_eq_zero]
  simpa using hne

theorem c9_missing_collection_error_witness :
    (validate_indexes
        [{ fields := some [{ fieldPath := some "a", order := some "ASCENDING" }] }]).errors ≠ []
    ∧ is_valid (validate_indexes
        [{ fields := some [{ fieldPath := some "a", order := some "ASCENDING" }] }]) = false :=
  c9_missing_collection_error _ _ (List.mem_singleton.mpr rfl) rfl

/-! ## Claim C8: both order and arrayConfig is a warning, and warnings
never affect validity -/

/-- Number of field descriptors carrying both `order` and `arrayConfig`
across a batch of definitions. -/
def countBothFields (defs : List IndexJson) : Nat :=
  (defs.map (fun d =>
    (d.fields.getD []).countP (fun f => f.order.isSome && f.arrayConfig.isSome))).sum

theorem fieldWarnings_flatten_length (idx : Nat) (n : Nat) (l : List FieldJson) :
    ((List.enumFrom n l).map (fun p => fieldWarnings idx p.1 p.2)).flatten.length
      = l.countP (fun f => f.order.isSome && f.arrayConfig.isSome) := by
  induction l generalizing n with
  | nil => simp [List.enumFrom]
  | cons hd tl ih =>
    simp only [List.enumFrom, List.map_cons, List.flatten_cons, List.length_append,
      ih (n + 1), List.countP_cons]
    by_cases hc : (hd.order.isSome && hd.arrayConfig.isSome) = true
    · simp [fieldWarnings, hc, Nat.add_comm]
    · simp [fieldWarnings, hc]

theorem indexWarnings_length (idx : Nat) (d : IndexJson) :
    (indexWarnings idx d).length
      = (d.fields.getD []).countP (fun f => f.order.isSome && f.arrayConfig.isSome) := by
  cases hf : d.fields with
  | none => simp [indexWarnings, hf]
  | some l => simpa [indexWarnings, hf, List.enum] using fieldWarnings_flatten_length idx 0 l

theorem warnings_flatten_length (n : Nat) (defs : List IndexJson) :
    ((List.enumFrom n defs).map (fun p => indexWarnings p.1 p.2)).flatten.length
      = countBothFields defs := by
  induction defs generalizing n with
  | nil => simp [List.enumFrom, countBothFields]
  | cons hd tl ih =>
    simp only [List.enumFrom, List.map_cons, List.flatten_cons, List.length_append,
      ih (n + 1), countBothFields, List.map_cons, List.sum_cons, indexWarnings_length]

/-- C8: (i) `validate_indexes` produces exactly one warning per field
carrying both `order` and `arrayConfig`; (ii) such a field, when otherwise
well-formed, contributes no error at all — the both-present combination is
a warning, not an error; (iii) the report is valid exactly when the errors
list is empty, no matter how many warnings were produced. -/
theorem c8_both_is_warning_only :
    (∀ defs : List IndexJson,
      (validate_indexes defs).warnings.length = countBothFields defs)
    ∧ (∀ idx fidx : Nat, ∀ f : FieldJson,
        f.fieldPath.isSome = true →
        (f.order = some "ASCENDING" ∨ f.order = some "DESCENDING") →
        f.arrayConfig = some "CONTAINS" →
        fieldErrors idx fidx f = [] ∧ fieldWarnings idx fidx f ≠ [])
    ∧ (∀ defs : List IndexJson,
        (is_valid (validate_indexes defs) = true ↔ (validate_indexes defs).errors = [])) := by
  refine ⟨?_, ?_, ?_⟩
  · intro defs
    simpa [validate_indexes, List.enum] using warnings_flatten_length 0 defs
  · intro idx fidx f hp ho ha
    obtain ⟨p, hp'⟩ := Option.isSome_iff_exists.mp hp
    rcases ho with ho | ho <;> simp [fieldErrors, fieldWarnings, hp', ho, ha]
  · intro defs
    simp [is_valid, List.length_eq_zero]

theorem c8_both_is_warning_only_witness :
    ((validate_indexes
        [{ collectionGroup := some "users",
           fields := some [{ fieldPath := some "tags", order := some "ASCENDING",
                             arrayConfig := some "CONTAINS" }] }]).warnings.length
      = countBothFields
        [{ collectionGroup := some "users",
           fields := some [{ fieldPath := some "tags", order := some "ASCENDING",
                             arrayConfig := some "CONTAINS" }] }])
    ∧ (fieldErrors 0 0
        { fieldPath := some "tags", order := some "ASCENDING",
          arrayConfig := some "CONTAINS" } = []
      ∧ fieldWarnings 0 0
        { fieldPath := some "tags", order := some "ASCENDING",
          arrayConfig := some "CONTAINS" } ≠ [])
    ∧ (is_valid (validate_indexes
        [{ collectionGroup := some "users",
           fields := some [{ fieldPath := some "tags", order := some "ASCENDING",
                             arrayConfig := some "CONTAINS" }] }]) = true
      ↔ (validate_indexes
        [{ collectionGroup := some "users",
           fields := some [{ fieldPath := some "tags", order := some "ASCENDING",
                             arrayConfig := some "CONTAINS" }] }]).errors = []) :=
  ⟨c8_both_is_warning_only.1 _,
   c8_both_is_warning_only.2.1 0 0 _ rfl (Or.inl rfl) rfl,
   c8_both_is_warning_only.2.2 _⟩

/-! ## Claim C1: the batch loop and the uncaught label KeyError -/

/-- C1 counterexample: a definition whose field descriptor has `order`
(so the mapped `api_field` is non-empty) but no `fieldPath` makes the
label construction on line 248 — outside the `try` — raise `KeyError`;
the whole batch aborts: no outcome list is produced and the following
definition is never processed, although its own submission would have
succeeded. -/
theorem c1_counterexample :
    create_indexes (fun _ _ => SubmitResult.accepted "operations/op1")
      [{ collectionGroup := some "c1", fields := some [{ order := some "ASCENDING" }] },
       { collectionGroup := some "c2",
         fields := some [{ fieldPath := some "x", order := some "ASCENDING" }] }]
      = Except.error "KeyError: fieldPath" := rfl

theorem describeAll_ok (fs : List FieldJson)
    (h : ∀ f ∈ fs, f.fieldPath.isSome = true) :
    ∃ ds, describeAll fs = Except.ok ds := by
  induction fs with
  | nil => exact ⟨[], rfl⟩
  | cons hd tl ih =>
    obtain ⟨p, hp⟩ := Option.isSome_iff_exists.mp (h hd (List.mem_cons_self hd tl))
    obtain ⟨ds, hds⟩ := ih (fun f hf => h f (List.mem_cons_of_mem hd hf))
    have hd_ok : ∃ s, describeField hd = Except.ok s := by
      cases ho : hd.order <;> simp [describeField, hp, ho]
    obtain ⟨s, hs⟩ := hd_ok
    refine ⟨s :: ds, ?_⟩
    simp only [describeAll, hs, hds]

theorem indexLabel_ok (cid : String) (fs : List FieldJson)
    (h : ∀ f ∈ fs, f.fieldPath.isSome = true) :
    ∃ s, indexLabel cid fs = .ok s := by
  obtain ⟨ds, hds⟩ := describeAll_ok fs h
  refine ⟨cid ++ " (" ++ joinComma ds ++ ")", ?_⟩
  simp only [indexLabel, hds]

theorem provisionStep_ok (submit : String → IndexBody → SubmitResult) (d : IndexJson)
    (h : ∀ f ∈ apiFields d, f.fieldPath.isSome = true) :
    ∃ o, provisionStep submit d = .ok o := by
  cases hc : d.collectionGroup with
  | none =>
    refine ⟨{ index := "Unknown", status := "Skipped",
              detail := "Missing collectionGroup in definition." }, ?_⟩
    simp only [provisionStep, hc]
  | some cid =>
    by_cases h1 : cid = ""
    · refine ⟨{ index := "Unknown", status := "Skipped",
                detail := "Missing collectionGroup in definition." }, ?_⟩
      simp only [provisionStep, hc, if_pos h1]
    · by_cases h2 : (apiFields d).isEmpty = true
      · refine ⟨{ index := cid, status := "Skipped",
                  detail := "No valid fields defined for index." }, ?_⟩
        simp only [provisionStep, hc, if_neg h1, if_pos h2]
      · obtain ⟨s, hs⟩ := indexLabel_ok cid (apiFields d) h
        refine ⟨submitOutcome s (submit cid (indexBody d)), ?_⟩
        simp only [provisionStep, hc, if_neg h1, if_neg h2, hs]
        rfl

/-- C1 amended: any exception raised while submitting a definition's
request is caught and recorded as an outcome, and remaining definitions
are still processed — `provision` returns one outcome per definition, in
input order, for every submission behavior (acceptance, remote error, or
unexpected exception).  This holds under the proviso, forced by the
counterexample, that every mapped field descriptor carries `fieldPath`:
the label construction sits before the guarded region, and a descriptor
with `order`/`arrayConfig` but no `fieldPath` makes the whole batch
raise. -/
theorem c1_one_outcome_per_definition (submit : String → IndexBody → SubmitResult)
    (defs : List IndexJson)
    (h : ∀ d ∈ defs, ∀ f ∈ apiFields d, f.fieldPath.isSome = true) :
    ∃ outs he, create_indexes submit defs = .ok (outs, he)
    ∧ outs.length = defs.length
    ∧ ∀ i : Nat, ∀ hi : i < defs.length, ∀ ho : i < outs.length,
        provisionStep submit (defs.get ⟨i, hi⟩) = .ok (outs.get ⟨i, ho⟩) := by
  induction defs with
  | nil =>
    refine ⟨[], false, rfl, rfl, ?_⟩
    intro i hi ho
    simp at hi
  | cons d ds ih =>
    obtain ⟨o, ho⟩ := provisionStep_ok submit d (h d (List.mem_cons_self d ds))
    obtain ⟨outs, he, hc, hlen, hidx⟩ := ih (fun d' hd' => h d' (List.mem_cons_of_mem d hd'))
    refine ⟨o :: outs, isErrStatus o || he, ?_, by simp [hlen], ?_⟩
    · simp only [create_indexes, ho, hc]
      rfl
    · intro i hi hoo
      cases i with
      | zero => simpa using ho
      | succ n =>
        simpa using hidx n (by simpa using hi) (by simpa using hoo)

theorem c1_one_outcome_per_definition_witness :
    ∃ outs he,
      create_indexes (fun _ _ => SubmitResult.exc "boom")
        [{ collectionGroup := some "c2",
           fields := some [{ fieldPath := some "x", order := some "ASCENDING" }] }]
        = .ok (outs, he)
      ∧ outs.length = 1
      ∧ ∀ i : Nat, ∀ hi : i < (1 : Nat), ∀ ho : i < outs.length,
          provisionStep (fun _ _ => SubmitResult.exc "boom")
            (([{ collectionGroup := some "c2",
                 fields := some [{ fieldPath := some "x",
                                   order := some "ASCENDING" }] }] : List IndexJson).get ⟨i, hi⟩)
            = .ok (outs.get ⟨i, ho⟩) :=
  c1_one_outcome_per_definition (fun _ _ => SubmitResult.exc "boom") _
    (by
      intro d hd f hf
      simp only [List.mem_singleton] at hd
      subst hd
      have hf' : f ∈ [({ fieldPath := some "x", order := some "ASCENDING",
                         arrayConfig := none } : FieldJson)] := hf
      simp only [List.mem_singleton] at hf'
      subst hf'
      rfl)

/-! ## Claim C3: Exists vs Error classification and the has_errors flag -/

theorem create_indexes_nil_inv (submit : String → IndexBody → SubmitResult)
    (outs : List Outcome) (he : Bool)
    (h : create_indexes submit [] = .ok (outs, he)) : outs = [] ∧ he = false := by
  simp only [create_indexes, Except.ok.injEq, Prod.mk.injEq] at h
  exact ⟨h.1.symm, h.2.symm⟩

theorem create_indexes_cons_inv (submit : String → IndexBody → SubmitResult)
    (d : IndexJson) (ds : List IndexJson) (outs : List Outcome) (he : Bool)
    (h : create_indexes submit (d :: ds) = .ok (outs, he)) :
    ∃ o rest he', provisionStep submit d = .ok o
      ∧ create_indexes submit ds = .ok (rest, he')
      ∧ outs = o :: rest ∧ he = (isErrStatus o || he') := by
  cases hstep : provisionStep submit d with
  | error e =>
    rw [show create_indexes submit (d :: ds)
          = Except.bind (provisionStep submit d) (fun o =>
              Except.bind (create_indexes submit ds) (fun pr =>
                Except.ok (o :: pr.1, isErrStatus o || pr.2))) from rfl,
        hstep] at h
    cases h
  | ok o =>
    cases hrec : create_indexes submit ds with
    | error e =>
      rw [show create_indexes submit (d :: ds)
            = Except.bind (provisionStep submit d) (fun o =>
                Except.bind (create_indexes submit ds) (fun pr =>
                  Except.ok (o :: pr.1, isErrStatus o || pr.2))) from rfl,
          hstep] at h
      simp only [Except.bind] at h
      rw [hrec] at h
      cases h
    | ok pr =>
      obtain ⟨rest, he'⟩ := pr
      rw [show create_indexes submit (d :: ds)
            = Except.bind (provisionStep submit d) (fun o =>
                Except.bind (create_indexes submit ds) (fun pr =>
                  Except.ok (o :: pr.1, isErrStatus o || pr.2))) from rfl,
          hstep] at h
      simp only [Except.bind] at h
      rw [hrec] at h
      simp only [Except.ok.injEq, Prod.mk.injEq] at h
      exact ⟨o, rest, he', rfl, rfl, h.1.symm, h.2.symm⟩

/-- C3: (i) for a definition whose remote creation call fails with an
`HttpError`, the recorded outcome is `Exists` exactly when the error
carries status code 409 or its content (falling back to the raw error
string) contains `already exists` case-insensitively, and is `Error` in
every other case; (ii) a completed batch has `has_errors = true` exactly
when some outcome is `Skipped` or `Error` — `Exists` and `Initiated`
outcomes never set it. -/
theorem c3_exists_iff_conflict :
    (∀ (label : String) (sc : Nat) (content : Option String) (strRep : String)
        (jm jd : Option String),
      ((submitOutcome label (.httpError sc content strRep jm jd)).status = "Exists"
        ↔ (sc = 409 ∨ strIn "already exists" (lowerStr (content.getD strRep)) = true))
      ∧ ((submitOutcome label (.httpError sc content strRep jm jd)).status = "Exists"
        ∨ (submitOutcome label (.httpError sc content strRep jm jd)).status = "Error"))
    ∧ (∀ (submit : String → IndexBody → SubmitResult) (defs : List IndexJson)
        (outs : List Outcome) (he : Bool),
      create_indexes submit defs = .ok (outs, he) →
      (he = true ↔ ∃ o ∈ outs, o.status = "Skipped" ∨ o.status = "Error")) := by
  constructor
  · intro label sc content strRep jm jd
    by_cases hc : (sc == 409 || strIn "already exists" (lowerStr (content.getD strRep))) = true
    · have hstat : (submitOutcome label (.httpError sc content strRep jm jd)).status
          = "Exists" := by
        simp [submitOutcome, httpErrorOutcome, hc]
      have hc' : sc = 409 ∨ strIn "already exists" (lowerStr (content.getD strRep)) = true := by
        simpa [Bool.or_eq_true, beq_iff_eq] using hc
      exact ⟨iff_of_true hstat hc', Or.inl hstat⟩
    · have hc' : ¬(sc = 409 ∨ strIn "already exists" (lowerStr (content.getD strRep)) = true) := by
        simpa [Bool.or_eq_true, beq_iff_eq] using hc
      have hstat : (submitOutcome label (.httpError sc content strRep jm jd)).status
          = "Error" := by
        simp [submitOutcome, httpErrorOutcome, hc]
      refine ⟨iff_of_false ?_ hc', Or.inr hstat⟩
      intro habs
      rw [hstat] at habs
      exact absurd habs (by decide)
  · intro submit defs
    induction defs with
    | nil =>
      intro outs he hok
      obtain ⟨h1, h2⟩ := create_indexes_nil_inv submit outs he hok
      subst h1; subst h2
      simp
    | cons d ds ih =>
      intro outs he hok
      obtain ⟨o, rest, he', hstep, hrec, houts, hhe⟩ :=
        create_indexes_cons_inv submit d ds outs he hok
      subst houts
      have hih := ih rest he' hrec
      constructor
      · intro htrue
        rw [hhe] at htrue
        rcases Bool.or_eq_true_iff.mp htrue with h1 | h1
        · refine ⟨o, List.mem_cons_self o rest, ?_⟩
          simpa [isErrStatus] using h1
        · obtain ⟨o', ho', hs'⟩ := hih.mp h1
          exact ⟨o', List.mem_cons_of_mem o ho', hs'⟩
      · rintro ⟨o', ho', hs'⟩
        rw [hhe]
        rcases List.mem_cons.mp ho' with heq | hmem
        · subst heq
          have : isErrStatus o' = true := by simpa [isErrStatus] using hs'
          simp [this]
        · have : he' = true := hih.mpr ⟨o', hmem, hs'⟩
          simp [this]

theorem c3_exists_iff_conflict_witness :
    (((submitOutcome "lbl" (.httpError 409 none "err" none none)).status = "Exists"
        ↔ ((409 : Nat) = 409
            ∨ strIn "already exists" (lowerStr ((none : Option String).getD "err")) = true))
      ∧ ((submitOutcome "lbl" (.httpError 409 none "err" none none)).status = "Exists"
        ∨ (submitOutcome "lbl" (.httpError 409 none "err" none none)).status = "Error"))
    ∧ ((true : Bool) = true
        ↔ ∃ o ∈ [(⟨"Unknown", "Skipped", "Missing collectionGroup in definition."⟩ : Outcome)],
          o.status = "Skipped" ∨ o.status = "Error") :=
  ⟨c3_exists_iff_conflict.1 "lbl" 409 none "err" none none,
   c3_exists_iff_conflict.2 (fun _ _ => SubmitResult.exc "x")
     [{ collectionGroup := none }] _ _ rfl⟩

/-! ## Claim C2: cross-backend equivalence

The code passes the search term into the `ILIKE` pattern unescaped, so a
term containing a `LIKE` pattern character (`%`, `_`, or the default
backslash escape) behaves differently on the two paths; and the exact
row order of `ORDER BY` (collation, placement of tied keys) is chosen by
the engine, not by the program.  What survives on every engine is the
pagination metadata and the number of items, proved below for
pattern-character-free terms; the item-order discrepancies are what the
counterexample and the engine-order parameter capture. -/

/-- The search term contains no SQL `LIKE` pattern character: neither of
the wildcards `%` and `_`, nor the backslash that the PostgreSQL backend
reads as the default escape character (the model of `ILIKE` above is
faithful exactly on such terms). -/
def noWild (s : String) : Prop :=
  ∀ c ∈ s.data, ¬(c = '%') ∧ ¬(c = '_') ∧ ¬(c = '\\')

theorem lowerChar_ne_wild (c : Char) (h5 : ¬(c = '%')) (h6 : ¬(c = '_')) :
    ¬(lowerChar c = '%') ∧ ¬(lowerChar c = '_') := by
  unfold lowerChar
  split
  all_goals first
    | exact ⟨by decide, by decide⟩
    | exact ⟨h5, h6⟩

theorem lowerStr_noWild (t : String) (h : noWild t) :
    ∀ c ∈ (lowerStr t).data, ¬(c = '%') ∧ ¬(c = '_') := by
  intro c hc
  have hc' : c ∈ t.data.map lowerChar := hc
  obtain ⟨c', hc'mem, hc'eq⟩ := List.mem_map.mp hc'
  obtain ⟨h5, h6, _⟩ := h c' hc'mem
  exact hc'eq ▸ lowerChar_ne_wild c' h5 h6

theorem splitPercent_no_perc (l : List Char) (h : ∀ c ∈ l, ¬(c = '%')) :
    splitPercent l = [l] := by
  induction l with
  | nil => rfl
  | cons c cs ih =>
    have hc : ¬(c = '%') := h c (List.mem_cons_self c cs)
    have ihh := ih (fun c' hc' => h c' (List.mem_cons_of_mem c hc'))
    simp [splitPercent, hc, ihh]

theorem leadMatch_no_us (seg : List Char) (h : ∀ c ∈ seg, ¬(c = '_')) :
    ∀ s, leadMatch seg s = plainLead seg s := by
  induction seg with
  | nil => intro s; cases s <;> rfl
  | cons p ps ih =>
    intro s
    cases s with
    | nil => rfl
    | cons c cs =>
      have hp : ¬(p = '_') := h p (List.mem_cons_self p ps)
      have ihh := ih (fun c' hc' => h c' (List.mem_cons_of_mem p hc')) cs
      simp only [leadMatch, plainLead, charMatches, ihh]
      have : (p == '_') = false := by simpa using hp
      rw [this, Bool.false_or]

theorem scanSeg_isSome (seg : List Char) (hseg : ∀ c ∈ seg, ¬(c = '_')) (s : List Char) :
    (scanSeg seg s).isSome = subSearch seg s := by
  induction s with
  | nil =>
    simp only [scanSeg, subSearch, leadMatch_no_us seg hseg]
    by_cases hb : plainLead seg [] = true
    · simp [hb]
    · simp [Bool.eq_false_iff.mpr hb]
  | cons c cs ih =>
    simp only [scanSeg, subSearch, leadMatch_no_us seg hseg]
    by_cases hb : plainLead seg (c :: cs) = true
    · simp [hb]
    · simp [Bool.eq_false_iff.mpr hb, ih]

/-- For a wildcard-free search term, the `ILIKE '%term%'` pattern match is
exactly the case-insensitive substring test the scan path performs. -/
theorem ilikeWrapped_eq_strIn (term s : String) (ht : noWild term) :
    ilikeWrapped term s = strIn (lowerStr term) (lowerStr s) := by
  have hlow := lowerStr_noWild term ht
  have hsplit : splitPercent ((lowerStr term).data) = [(lowerStr term).data] :=
    splitPercent_no_perc _ (fun c hc => (hlow c hc).1)
  unfold ilikeWrapped
  rw [hsplit]
  show (match scanSeg ((lowerStr term).data) ((lowerStr s).data) with
        | none => false
        | some rem => matchSegs [] rem) = _
  cases hscan : scanSeg ((lowerStr term).data) ((lowerStr s).data) with
  | none =>
    have := scanSeg_isSome ((lowerStr term).data) (fun c hc => (hlow c hc).2) ((lowerStr s).data)
    rw [hscan] at this
    simpa [strIn, matchSegs] using this.symm
  | some rem =>
    have := scanSeg_isSome ((lowerStr term).data) (fun c hc => (hlow c hc).2) ((lowerStr s).data)
    rw [hscan] at this
    simpa [strIn, matchSegs] using this.symm

theorem strIn_empty_hay (needle : String) (h : needle.data ≠ []) :
    strIn needle "" = false := by
  unfold strIn subSearch
  cases hn : needle.data with
  | nil => exact absurd hn h
  | cons c cs => rfl

theorem lowerStr_data_ne_nil (t : String) (h : ¬(t = "")) : (lowerStr t).data ≠ [] := by
  intro habs
  apply h
  have hnil : t.data = [] := List.map_eq_nil_iff.mp habs
  cases t with
  | mk data =>
    have hd : data = [] := hnil
    subst hd
    rfl

theorem ilike_opt_eq (t : String) (ht : noWild t) (hnil : (lowerStr t).data ≠ [])
    (v : Option String) :
    (match v with | some s => ilikeWrapped t s | none => false)
      = (match v with
         | some s => truthyStr s && strIn (lowerStr t) (lowerStr s)
         | none => false) := by
  cases v with
  | none => rfl
  | some s =>
    show ilikeWrapped t s = (truthyStr s && strIn (lowerStr t) (lowerStr s))
    rw [ilikeWrapped_eq_strIn t s ht]
    by_cases hs : s = ""
    · subst hs
      have h1 : truthyStr "" = false := rfl
      have h2 : lowerStr "" = "" := rfl
      rw [h1, Bool.false_and, h2, strIn_empty_hay _ hnil]
    · have : truthyStr s = true := by simpa [truthyStr] using hs
      rw [this, Bool.true_and]

/-- For a truthy wildcard-free term, the SQL search predicate agrees with
the scan path's per-record search predicate. -/
theorem search_match_eq (t : String) (ht : noWild t) (ht0 : ¬(t = "")) (c : Cat) :
    sql_search_match t c = scan_search_match t c := by
  have hnil := lowerStr_data_ne_nil t ht0
  show (ilikeWrapped t c.code
      || (match c.name with | some s => ilikeWrapped t s | none => false)
      || (match c.description with | some s => ilikeWrapped t s | none => false))
    = (strIn (lowerStr t) (lowerStr c.code)
      || (match c.name with
          | some s => truthyStr s && strIn (lowerStr t) (lowerStr s)
          | none => false)
      || (match c.description with
          | some s => truthyStr s && strIn (lowerStr t) (lowerStr s)
          | none => false))
  rw [ilikeWrapped_eq_strIn t c.code ht, ilike_opt_eq t ht hnil c.name,
    ilike_opt_eq t ht hnil c.description]

/-- The two WHERE stages agree for a wildcard-free (or absent) search. -/
theorem filtered_eq (search statusF : Option String) (l : List Cat)
    (h : match search with | some t => noWild t | none => True) :
    sql_filtered search statusF l = scan_filtered search statusF l := by
  unfold sql_filtered scan_filtered
  cases hs : search with
  | none => rfl
  | some t =>
    rw [hs] at h
    by_cases ht : truthyStr t = true
    · have ht0 : ¬(t = "") := by simpa [truthyStr] using ht
      have : l.filter (sql_search_match t) = l.filter (scan_search_match t) :=
        List.filter_congr (fun c _ => search_match_eq t h ht0 c)
      simp only [ht, if_true, this]
    · simp [Bool.eq_false_iff.mpr ht]

/-! ### What the engine guarantees: lengths and pagination metadata -/

theorem pyInsertBy_length {α : Type} (keep : Ordering → Bool) (key : α → SortKey)
    (x : α) (l m : List α) (h : pyInsertBy keep key x l = some m) :
    m.length = l.length + 1 := by
  induction l generalizing m with
  | nil =>
    simp only [pyInsertBy, Option.some.injEq] at h
    subst h
    rfl
  | cons y ys ih =>
    simp only [pyInsertBy] at h
    cases hc : pyCompare (key x) (key y) with
    | none => rw [hc] at h; cases h
    | some o =>
      rw [hc] at h
      replace h : (if keep o = true then some (x :: y :: ys)
          else (pyInsertBy keep key x ys).map (y :: ·)) = some m := h
      by_cases hk : keep o = true
      · rw [if_pos hk] at h
        simp only [Option.some.injEq] at h
        subst h
        rfl
      · rw [if_neg hk] at h
        cases hins : pyInsertBy keep key x ys with
        | none => rw [hins] at h; cases h
        | some m' =>
          rw [hins] at h
          simp only [Option.map_some', Option.some.injEq] at h
          subst h
          simp [List.length_cons, ih m' hins]

theorem pySortBy_length {α : Type} (keep : Ordering → Bool) (key : α → SortKey)
    (l out : List α) (h : pySortBy keep key l = some out) :
    out.length = l.length := by
  induction l generalizing out with
  | nil =>
    simp only [pySortBy, Option.some.injEq] at h
    subst h
    rfl
  | cons x xs ih =>
    simp only [pySortBy] at h
    cases hs : pySortBy keep key xs with
    | none => rw [hs] at h; cases h
    | some mid =>
      rw [hs] at h
      replace h : pyInsertBy keep key x mid = some out := h
      rw [pyInsertBy_length keep key x mid out h, ih mid hs]
      rfl

/-- Both paginators compute their metadata from the length of the ordered
set and the requested page alone, so any two orderings of equally many
rows give the same total, pages, has_next, has_prev and item count. -/
theorem paginate_metadata_eq {α : Type} (L1 L2 : List α) (page pp : Nat)
    (hlen : L1.length = L2.length) (hpage : 1 ≤ page) (hpp : 1 ≤ pp) :
    (paginate_firestore L1 page pp).total = (flask_paginate L2 page pp).total
    ∧ (paginate_firestore L1 page pp).pages = (flask_paginate L2 page pp).pages
    ∧ (paginate_firestore L1 page pp).has_next = (flask_paginate L2 page pp).has_next
    ∧ (paginate_firestore L1 page pp).has_prev = (flask_paginate L2 page pp).has_prev
    ∧ (paginate_firestore L1 page pp).items.length
        = (flask_paginate L2 page pp).items.length := by
  have hpages : (if L2.length = 0 ∨ pp = 0 then 0 else (L2.length + pp - 1) / pp)
      = (L2.length + pp - 1) / pp := by
    by_cases h0 : L2.length = 0
    · rw [if_pos (Or.inl h0), h0]
      exact (Nat.div_eq_of_lt (by omega)).symm
    · have : ¬(L2.length = 0 ∨ pp = 0) := by omega
      rw [if_neg this]
  have hexp : (page - 1) * pp + pp = page * pp := by
    obtain ⟨p', rfl⟩ : ∃ p', page = p' + 1 := ⟨page - 1, by omega⟩
    simp [Nat.succ_mul]
  have hnext : decide ((page - 1) * pp + pp < L2.length)
      = decide (page < (L2.length + pp - 1) / pp) := by
    apply decide_eq_decide.mpr
    rw [hexp]
    exact (lt_ceil_div_iff page L2.length pp hpp).symm
  refine ⟨?_, ?_, ?_, rfl, ?_⟩
  · simp only [paginate_firestore, flask_paginate]
    exact hlen
  · simp only [paginate_firestore, flask_paginate, hpages, hlen]
  · simp only [paginate_firestore, flask_paginate, hpages, hlen]
    exact hnext
  · simp only [paginate_firestore, flask_paginate, List.length_take, List.length_drop, hlen]

/-- C2 counterexample: the term `a%` reaches the SQL engine as the
pattern `%a%%`, whose `%` matches anything, so the Capable Store path
matches the record with code `abc` (total 1) while the Scan Store path's
literal substring test does not (total 0).  The totals differ, so no row
order the engine could return makes the two Result Pages identical —
shown here at the identity order. -/
theorem c2_counterexample :
    (get_file_categories
        { page := 1, per_page := 20, search := some "a%", status := none,
          sort := "code", order := "asc" }
        [⟨"abc", none, none, none, none⟩]).map Page.total = some 0
    ∧ (get_users (fun F => F)
        { page := 1, per_page := 20, search := some "a%", status := none,
          sort := "code", order := "asc" }
        [⟨"abc", none, none, none, none⟩]).total = 1
    ∧ get_file_categories
        { page := 1, per_page := 20, search := some "a%", status := none,
          sort := "code", order := "asc" }
        [⟨"abc", none, none, none, none⟩]
      ≠ some (get_users (fun F => F)
        { page := 1, per_page := 20, search := some "a%", status := none,
          sort := "code", order := "asc" }
        [⟨"abc", none, none, none, none⟩]) := by decide

/-- C2 amended: for every dataset and every Query Spec with `page ≥ 1`
and `per_page ∈ [1,100]`, and for every row order the SQL engine may
return for the Capable Store's ORDER BY — modelled as an arbitrary
permutation of the filtered rows, since the engine, not the program,
chooses the text collation and the placement of tied keys — whenever the
Scan Store path produces a Result Page, the two paths agree on `total`,
`pages`, `has_next`, `has_prev` and on the number of items returned,
provided the search term (when present) contains none of the `LIKE`
pattern characters `%`, `_`, `\`.  Item-for-item equality of the pages
is not claimed: it is not a property of the program (see the
counterexample for the search divergence, and the engine-order parameter
for the ordering one). -/
theorem c2_cross_backend_equiv (engineOrder : List Cat → List Cat) (sp : QuerySpec)
    (l : List Cat) (p : Page Cat)
    (hpage : 1 ≤ sp.page) (hpp : 1 ≤ sp.per_page) (hpp2 : sp.per_page ≤ 100)
    (hsearch : match sp.search with | some t => noWild t | none => True)
    (hperm : (engineOrder (sql_filtered sp.search sp.status l)).Perm
        (sql_filtered sp.search sp.status l))
    (hscan : get_file_categories sp l = some p) :
    p.total = (get_users engineOrder sp l).total
    ∧ p.pages = (get_users engineOrder sp l).pages
    ∧ p.has_next = (get_users engineOrder sp l).has_next
    ∧ p.has_prev = (get_users engineOrder sp l).has_prev
    ∧ p.items.length = (get_users engineOrder sp l).items.length := by
  unfold get_file_categories at hscan
  rw [Option.map_eq_some'] at hscan
  obtain ⟨sorted, hsorted, hp⟩ := hscan
  subst hp
  have hlen1 : sorted.length = (scan_filtered sp.search sp.status l).length :=
    pySortBy_length (keepOfOrder (sp.order == "desc"))
      (get_sort_value sp.sort) _ sorted hsorted
  have hlen2 := hperm.length_eq
  have hfilter := filtered_eq sp.search sp.status l hsearch
  have hlen : sorted.length
      = (engineOrder (sql_filtered sp.search sp.status l)).length := by
    rw [hlen1, hlen2, hfilter]
  unfold get_users
  exact paginate_metadata_eq sorted _ sp.page sp.per_page hlen hpage hpp

theorem c2_cross_backend_equiv_witness :
    (⟨[⟨"Checks", none, none, none, none⟩], 1, 1, false, false⟩ : Page Cat).total
        = (get_users List.reverse
            { page := 1, per_page := 2, search := some "check", status := none,
              sort := "code", order := "asc" }
            [⟨"Checks", none, none, none, none⟩]).total
    ∧ (⟨[⟨"Checks", none, none, none, none⟩], 1, 1, false, false⟩ : Page Cat).pages
        = (get_users List.reverse
            { page := 1, per_page := 2, search := some "check", status := none,
              sort := "code", order := "asc" }
            [⟨"Checks", none, none, none, none⟩]).pages
    ∧ (⟨[⟨"Checks", none, none, none, none⟩], 1, 1, false, false⟩ : Page Cat).has_next
        = (get_users List.reverse
            { page := 1, per_page := 2, search := some "check", status := none,
              sort := "code", order := "asc" }
            [⟨"Checks", none, none, none, none⟩]).has_next
    ∧ (⟨[⟨"Checks", none, none, none, none⟩], 1, 1, false, false⟩ : Page Cat).has_prev
        = (get_users List.reverse
            { page := 1, per_page := 2, search := some "check", status := none,
              sort := "code", order := "asc" }
            [⟨"Checks", none, none, none, none⟩]).has_prev
    ∧ (⟨[⟨"Checks", none, none, none, none⟩], 1, 1, false, false⟩ : Page Cat).items.length
        = (get_users List.reverse
            { page := 1, per_page := 2, search := some "check", status := none,
              sort := "code", order := "asc" }
            [⟨"Checks", none, none, none, none⟩]).items.length :=
  c2_cross_backend_equiv List.reverse
    { page := 1, per_page := 2, search := some "check", status := none,
      sort := "code", order := "asc" }
    [⟨"Checks", none, none, none, none⟩]
    ⟨[⟨"Checks", none, none, none, none⟩], 1, 1, false, false⟩
    (by decide) (by decide) (by decide)
    (by show noWild "check"; unfold noWild; decide)
    (List.reverse_perm _)
    (by decide)

/-! ## Claim C6: equal sort keys keep their input order, both directions -/

theorem cmpCharList_self (l : List Char) : cmpCharList l l = Ordering.eq := by
  induction l with
  | nil => rfl
  | cons c cs ih => simp [cmpCharList, cmpNat, ih]

theorem pyCompare_self (k : SortKey) : pyCompare k k = some Ordering.eq := by
  cases k <;> simp [pyCompare, cmpStr, cmpInt, cmpCharList_self, lt_irrefl]

theorem pyInsertBy_filter {α : Type} (keep : Ordering → Bool) (key : α → SortKey)
    (hkeep : keep Ordering.eq = true) (x : α) (l : List α) (m : List α)
    (h : pyInsertBy keep key x l = some m) (k : SortKey) :
    m.filter (fun r => decide (key r = k))
      = (if key x = k then [x] else []) ++ l.filter (fun r => decide (key r = k)) := by
  induction l generalizing m with
  | nil =>
    simp only [pyInsertBy, Option.some.injEq] at h
    subst h
    by_cases hx : key x = k <;> simp [hx]
  | cons y ys ih =>
    simp only [pyInsertBy] at h
    cases hc : pyCompare (key x) (key y) with
    | none => rw [hc] at h; cases h
    | some o =>
      rw [hc] at h
      replace h : (if keep o = true then some (x :: y :: ys)
          else (pyInsertBy keep key x ys).map (y :: ·)) = some m := h
      by_cases hk : keep o = true
      · rw [if_pos hk] at h
        simp only [Option.some.injEq] at h
        subst h
        by_cases hx : key x = k <;> simp [List.filter_cons, hx]
      · rw [if_neg hk] at h
        cases hins : pyInsertBy keep key x ys with
        | none => rw [hins] at h; cases h
        | some m' =>
          rw [hins] at h
          simp only [Option.map_some', Option.some.injEq] at h
          subst h
          have hIH := ih m' hins
          by_cases hyx : key y = k
          · have hxy : key x ≠ key y := by
              intro heq
              rw [heq, pyCompare_self] at hc
              injection hc with hc'
              exact hk (hc' ▸ hkeep)
            have hx : ¬(key x = k) := fun hxk => hxy (hxk.trans hyx.symm)
            simp [List.filter_cons, hx, hyx, hIH]
          · simp [List.filter_cons, hyx, hIH]

theorem pySortBy_filter_stable {α : Type} (keep : Ordering → Bool) (key : α → SortKey)
    (hkeep : keep Ordering.eq = true) (l out : List α)
    (h : pySortBy keep key l = some out) (k : SortKey) :
    out.filter (fun r => decide (key r = k)) = l.filter (fun r => decide (key r = k)) := by
  induction l generalizing out with
  | nil =>
    simp only [pySortBy, Option.some.injEq] at h
    subst h
    rfl
  | cons x xs ih =>
    simp only [pySortBy] at h
    cases hs : pySortBy keep key xs with
    | none => rw [hs] at h; cases h
    | some mid =>
      rw [hs] at h
      replace h : pyInsertBy keep key x mid = some out := h
      rw [pyInsertBy_filter keep key hkeep x mid out h k, ih mid hs]
      by_cases hx : key x = k <;> simp [List.filter_cons, hx]

/-- C6: for every list of records and every sort field, records with equal
sort keys keep their relative input order in the sorted output under both
directions — `desc` flips the comparator, not the final list, and both
direction predicates keep `eq`, so the sublist of records whose key
equals any given value is unchanged by the sort. -/
theorem c6_equal_keys_stable (sort_field : String) (l : List Cat) (desc : Bool)
    (out : List Cat) (h : scan_sort sort_field desc l = some out) (k : SortKey) :
    out.filter (fun c => decide (get_sort_value sort_field c = k))
      = l.filter (fun c => decide (get_sort_value sort_field c = k)) :=
  pySortBy_filter_stable (keepOfOrder desc) (get_sort_value sort_field)
    (by cases desc <;> rfl) l out h k

theorem c6_equal_keys_stable_witness :
    ([⟨"A", none, none, some "active", none⟩,
      ⟨"B", none, none, some "active", none⟩] : List Cat).filter
        (fun c => decide (get_sort_value "status" c = SortKey.str "active"))
      = ([⟨"A", none, none, some "active", none⟩,
          ⟨"B", none, none, some "active", none⟩] : List Cat).filter
        (fun c => decide (get_sort_value "status" c = SortKey.str "active")) :=
  c6_equal_keys_stable "status"
    [⟨"A", none, none, some "active", none⟩, ⟨"B", none, none, some "active", none⟩]
    true
    [⟨"A", none, none, some "active", none⟩, ⟨"B", none, none, some "active", none⟩]
    (by decide) (SortKey.str "active")

end AdminDash
